import Mathlib

/-!
Verification of the easy-repl command dispatch engine.

This file is a shallow embedding of the core of the library:

* `split_args` models the shell-word tokenizer used for command names and
  input lines (the `shell_words::split` dependency of `repl.rs`); it is a
  direct transcription of that crate's state machine.
* `validator` / `validateValues` embed the argument validator generated by
  the `validator!` macro of `command.rs`: an arity check followed by
  positional parse attempts that stop at the first failure.  A concrete Rust
  type in the macro's type list is modelled by its `ArgType.parse` function.
* `parseAll` / `commandRun` embed the handler wrapper generated by the
  `command!` macro: run the validator, then re-parse every argument with
  `.unwrap()` (a failing unwrap is modelled as `none`) and call the closure.
* `build` / `buildLoop` embed `ReplBuilder::build` of `repl.rs`: name
  validation (tokenizes to one word and is non-empty, is not reserved, is
  not a duplicate) and construction of the name trie.  The trie is modelled
  by the list of the names pushed into it (user commands then the reserved
  names); `completion_candidates` of `completion.rs` only queries it for
  the entries starting with a given non-empty token, so the list of members
  is a faithful model (the order returned by `predictive_search` is never
  observed by the claims: the code sorts before printing).
* `handle_command`, `dispatch`, `handle_line` and `run` embed the
  corresponding logic of `Repl` in `repl.rs`.  Writes to the output stream
  are modelled as a list of `Out` events (one per `writeln!`); the body of
  the help message is presentation logic outside the claims and is a single
  `Out.helpMessage` event.  `anyhow` errors returned by handlers are
  classified the way the two `downcast_ref` calls of `handle_line` observe
  them: `ReplError.critical` (the `CriticalError` wrapper),
  `ReplError.args` (an `ArgsError`) or `ReplError.other`.  Statements that
  index with `unwrap` on values absent from the map are modelled as `none`.
-/

/-- State of the shell-words splitting state machine (`shell_words::split`). -/
inductive SplitState
  | delimiter
  | backslash
  | unquoted
  | unquotedBackslash
  | singleQuoted
  | doubleQuoted
  | doubleQuotedBackslash
  | comment
  deriving Repr, DecidableEq

/-- One step per input character of the shell-words splitter; `word` is the
word being accumulated and `words` the completed words.  `none` models the
mismatched-quote parse error. -/
def splitRun : List Char → SplitState → List Char → List String → Option (List String)
  | [], SplitState.delimiter, _, words => some words
  | c :: rest, SplitState.delimiter, word, words =>
    if c = '\'' then splitRun rest SplitState.singleQuoted word words
    else if c = '"' then splitRun rest SplitState.doubleQuoted word words
    else if c = '\\' then splitRun rest SplitState.backslash word words
    else if c = '\t' ∨ c = ' ' ∨ c = '\n' then splitRun rest SplitState.delimiter word words
    else if c = '#' then splitRun rest SplitState.comment word words
    else splitRun rest SplitState.unquoted (word ++ [c]) words
  | [], SplitState.backslash, word, words => some (words ++ [String.mk (word ++ ['\\'])])
  | c :: rest, SplitState.backslash, word, words =>
    if c = '\n' then splitRun rest SplitState.delimiter word words
    else splitRun rest SplitState.unquoted (word ++ [c]) words
  | [], SplitState.unquoted, word, words => some (words ++ [String.mk word])
  | c :: rest, SplitState.unquoted, word, words =>
    if c = '\'' then splitRun rest SplitState.singleQuoted word words
    else if c = '"' then splitRun rest SplitState.doubleQuoted word words
    else if c = '\\' then splitRun rest SplitState.unquotedBackslash word words
    else if c = '\t' ∨ c = ' ' ∨ c = '\n' then
      splitRun rest SplitState.delimiter [] (words ++ [String.mk word])
    else splitRun rest SplitState.unquoted (word ++ [c]) words
  | [], SplitState.unquotedBackslash, word, words => some (words ++ [String.mk (word ++ ['\\'])])
  | c :: rest, SplitState.unquotedBackslash, word, words =>
    if c = '\n' then splitRun rest SplitState.unquoted word words
    else splitRun rest SplitState.unquoted (word ++ [c]) words
  | [], SplitState.singleQuoted, _, _ => none
  | c :: rest, SplitState.singleQuoted, word, words =>
    if c = '\'' then splitRun rest SplitState.unquoted word words
    else splitRun rest SplitState.singleQuoted (word ++ [c]) words
  | [], SplitState.doubleQuoted, _, _ => none
  | c :: rest, SplitState.doubleQuoted, word, words =>
    if c = '"' then splitRun rest SplitState.unquoted word words
    else if c = '\\' then splitRun rest SplitState.doubleQuotedBackslash word words
    else splitRun rest SplitState.doubleQuoted (word ++ [c]) words
  | [], SplitState.doubleQuotedBackslash, _, _ => none
  | c :: rest, SplitState.doubleQuotedBackslash, word, words =>
    if c = '\n' then splitRun rest SplitState.doubleQuoted word words
    else if c = '$' ∨ c.toNat = 96 ∨ c = '"' ∨ c = '\\' then
      splitRun rest SplitState.doubleQuoted (word ++ [c]) words
    else splitRun rest SplitState.doubleQuoted (word ++ ['\\', c]) words
  | [], SplitState.comment, _, words => some words
  | c :: rest, SplitState.comment, word, words =>
    if c = '\n' then splitRun rest SplitState.delimiter word words
    else splitRun rest SplitState.comment word words

/-- Model of `split_args` of `repl.rs` (which is `shell_words::split`). -/
def split_args (line : String) : Option (List String) :=
  splitRun line.data SplitState.delimiter [] []

/-- The `ArgsError` enum of `command.rs`. -/
inductive ArgsError
  | WrongNumberOfArguments (got expected : Nat)
  | WrongArgumentValue (argument : String) (error : String)
  deriving Repr, DecidableEq

/-- One entry of the type list given to the `validator!` macro, modelled by
the parse function of that Rust type: `Except.ok` is a successful
`str::parse`, `Except.error` carries the message of the parse error. -/
structure ArgType where
  parse : String → Except String String

instance : Inhabited ArgType := ⟨⟨fun s => Except.ok s⟩⟩

/-- The per-position parse loop generated by `validator!`: try each argument
in positional order against its declared type and stop at the first
failure.  Reached only after the arity check, so the two lists have equal
length there. -/
def validateValues : List ArgType → List String → Except ArgsError Unit
  | t :: ts, a :: rest =>
    match t.parse a with
    | Except.error e => Except.error (ArgsError.WrongArgumentValue a e)
    | Except.ok _ => validateValues ts rest
  | _, _ => Except.ok ()

/-- The closure generated by the `validator!` macro of `command.rs`:
first the arity check, then the positional parse attempts. -/
def validator (spec : List ArgType) (args : List String) : Except ArgsError Unit :=
  if args.length ≠ spec.length then
    Except.error (ArgsError.WrongNumberOfArguments args.length spec.length)
  else validateValues spec args

/-- Return status of a command (`CommandStatus` of `command.rs`). -/
inductive CommandStatus
  | Done
  | Quit
  deriving Repr, DecidableEq

/-- A handler error as classified by the `downcast_ref` calls of
`Repl::handle_line`: the `CriticalError` wrapper, an `ArgsError`, or any
other `anyhow` error. -/
inductive ReplError
  | critical (msg : String)
  | args (e : ArgsError)
  | other (msg : String)
  deriving Repr, DecidableEq

/-- The argument re-parsing done by the handler generated by `command!`:
`args[i].parse::<T>().unwrap()` for every position.  A failing unwrap
(panic) is modelled as `none`. -/
def parseAll : List ArgType → List String → Option (List String)
  | [], [] => some []
  | t :: ts, a :: rest =>
    match t.parse a with
    | Except.error _ => none
    | Except.ok v =>
      match parseAll ts rest with
      | none => none
      | some vs => some (v :: vs)
  | _, _ => none

/-- The full handler generated by the `command!` macro: run the validator
(an `ArgsError` is returned to the REPL), then re-parse every argument with
`.unwrap()` and call the user closure on the parsed values. -/
def commandRun (spec : List ArgType) (handler : List String → Except ReplError CommandStatus)
    (args : List String) : Option (Except ReplError CommandStatus) :=
  match validator spec args with
  | Except.error e => some (Except.error (ReplError.args e))
  | Except.ok _ =>
    match parseAll spec args with
    | none => none
    | some vals => some (handler vals)

/-- The `Command` struct of `command.rs` (the boxed handler is a function
from the raw argument strings to a status or error). -/
structure Command where
  description : String
  args_info : List String
  handler : List String → Except ReplError CommandStatus

/-- The `RESERVED` constant of `repl.rs`. -/
def RESERVED : List (String × String) :=
  [("help", "Show this help message"), ("quit", "Quit repl")]

/-- The `Repl` struct of `repl.rs` restricted to the fields the dispatch
logic reads; presentation-only fields (prompt, text width, the rustyline
editor, the output stream) are omitted, output being modelled as events. -/
structure Repl where
  commands : List (String × Command)
  trie : List String
  predict_commands : Bool

/-- The `BuilderError` enum of `repl.rs`. -/
inductive BuilderError
  | DuplicateCommands (name : String)
  | InvalidName (name : String)
  | ReservedName (name : String)
  deriving Repr, DecidableEq

/-- Test of `RESERVED.iter().find(|(n, _)| n == name).is_some()`. -/
def isReserved (name : String) : Bool :=
  RESERVED.any (fun r => r.1 == name)

/-- The name validity test of `ReplBuilder::build`: `split_args` succeeds,
yields exactly one token, and the name is non-empty (a tokenizer error and
a wrong token count both produce `InvalidName`). -/
def validName (name : String) : Bool :=
  match split_args name with
  | none => false
  | some toks => toks.length == 1 && !(name == "")

/-- The command registration loop of `ReplBuilder::build`: `done` is the
map and trie content accumulated from the already processed commands (the
source inserts into the map before the checks; the returned previous value
`old` is what `done` records here). -/
def buildLoop (predict : Bool) (done : List (String × Command)) :
    List (String × Command) → Except BuilderError Repl
  | [] =>
    Except.ok { commands := done,
                trie := done.map Prod.fst ++ RESERVED.map Prod.fst,
                predict_commands := predict }
  | (name, cmd) :: rest =>
    if validName name = false then Except.error (BuilderError.InvalidName name)
    else if isReserved name then Except.error (BuilderError.ReservedName name)
    else if done.any (fun c => c.1 == name) then
      Except.error (BuilderError.DuplicateCommands name)
    else buildLoop predict (done ++ [(name, cmd)]) rest

/-- `ReplBuilder::build` (the `predict` flag is the `predict_commands`
builder option; the editor and helper construction is presentation). -/
def build (predict : Bool) (cmds : List (String × Command)) : Except BuilderError Repl :=
  buildLoop predict [] cmds

/-- Byte-lexicographic order on strings as used by Rust's `Vec::sort` on
`String`, expressed on Unicode scalar values (UTF-8 byte order coincides
with scalar value order). -/
def lexLe : List Char → List Char → Bool
  | [], _ => true
  | _ :: _, [] => false
  | a :: as1, b :: bs1 =>
    if a.toNat < b.toNat then true
    else if b.toNat < a.toNat then false
    else lexLe as1 bs1

/-- Order on strings used to model `candidates.sort()`. -/
def strLe (a b : String) : Bool := lexLe a.data b.data

/-- Insertion step of the sorting model. -/
def insertSorted (x : String) : List String → List String
  | [] => [x]
  | y :: ys => if strLe x y then x :: y :: ys else y :: insertSorted x ys

/-- Model of `candidates.sort()`: insertion sort by `strLe` (extensionally
the sorted permutation, which is what `Vec::sort` produces). -/
def sortStrings : List String → List String
  | [] => []
  | x :: xs => insertSorted x (sortStrings xs)

/-- Byte-prefix test of the trie query, on scalar values (for valid UTF-8
strings the byte prefixes are exactly the character prefixes). -/
def strIsPrefix (p s : String) : Bool := List.isPrefixOf p.data s.data

/-- `completion_candidates` of `completion.rs`: an empty prefix yields
nothing, otherwise all trie entries starting with the prefix
(`trie.predictive_search`). -/
def completion_candidates (trie : List String) (pfx : String) : List String :=
  if pfx = "" then [] else trie.filter (fun name => strIsPrefix pfx name)

/-- One `writeln!` of the REPL to its output stream. -/
inductive Out
  | commandNotFound (pfx : String)
  | candidates (names : List String)
  | useHelp
  | helpMessage
  | errorMsg (e : ReplError)
  | usage (name : String) (args_info : List String)
  deriving Repr, DecidableEq

/-- The `LoopStatus` enum of `repl.rs`. -/
inductive LoopStatus
  | Continue
  | Break
  deriving Repr, DecidableEq

/-- Lookup in the command map (`self.commands.get(name)`). -/
def lookupCmd (cmds : List (String × Command)) (name : String) : Option Command :=
  (cmds.find? (fun c => c.1 == name)).map Prod.snd

/-- `Repl::handle_command`: built-in help and quit, otherwise run the
registered command's handler (`unwrap` on a missing name is `none`). -/
def handle_command (r : Repl) (name : String) (args : List String) :
    Option (List Out × Except ReplError CommandStatus) :=
  if name = "help" then some ([Out.helpMessage], Except.ok CommandStatus.Done)
  else if name = "quit" then some ([], Except.ok CommandStatus.Quit)
  else
    match lookupCmd r.commands name with
    | some cmd => some ([], cmd.handler args)
    | none => none

/-- The dispatch and error classification of `Repl::handle_line` once a
unique candidate `name` has been resolved: a `CriticalError` is returned to
the caller, any other error is printed (and an `ArgsError` additionally
prints the usage line), statuses map to the loop statuses. -/
def dispatch (r : Repl) (name : String) (tail : List String) :
    Option (List Out × Except ReplError LoopStatus) :=
  match handle_command r name tail with
  | none => none
  | some (outs, Except.ok CommandStatus.Done) => some (outs, Except.ok LoopStatus.Continue)
  | some (outs, Except.ok CommandStatus.Quit) => some (outs, Except.ok LoopStatus.Break)
  | some (outs, Except.error (ReplError.critical m)) =>
    some (outs, Except.error (ReplError.critical m))
  | some (outs, Except.error (ReplError.args ae)) =>
    match lookupCmd r.commands name with
    | none => none
    | some cmd =>
      some (outs ++ [Out.errorMsg (ReplError.args ae), Out.usage name cmd.args_info],
            Except.ok LoopStatus.Continue)
  | some (outs, Except.error (ReplError.other m)) =>
    some (outs ++ [Out.errorMsg (ReplError.other m)], Except.ok LoopStatus.Continue)

/-- `Repl::handle_line` after tokenization: `args` is the token list of the
input line (the source indexes `args[0]`, so the empty list is the panic
value `none`).  The source's `exact` flag (`candidates.len() == 1 &&
candidates[0] == prefix`) is written as `candidates = [pfx]`. -/
def handle_line (r : Repl) (args : List String) :
    Option (List Out × Except ReplError LoopStatus) :=
  match args with
  | [] => none
  | pfx :: tail =>
    if (completion_candidates r.trie pfx).length ≠ 1 ∨
        (r.predict_commands = false ∧ completion_candidates r.trie pfx ≠ [pfx]) then
      some ([Out.commandNotFound pfx]
        ++ (if 1 < (completion_candidates r.trie pfx).length ∨
                (r.predict_commands = false ∧ completion_candidates r.trie pfx ≠ [pfx])
            then [Out.candidates (sortStrings (completion_candidates r.trie pfx))] else [])
        ++ [Out.useHelp],
        Except.ok LoopStatus.Continue)
    else
      match completion_candidates r.trie pfx with
      | [name] => dispatch r name tail
      | _ => none

/-- `Repl::run` driven by a script of tokenized input lines (the editor
yields them in order, then end of input, which breaks the loop cleanly):
loop on `handle_line` while it returns `Continue`, stop on `Break`, and
propagate an error to the caller. -/
def run (r : Repl) : List (List String) → Option (List Out × Except ReplError Unit)
  | [] => some ([], Except.ok ())
  | args :: rest =>
    match handle_line r args with
    | none => none
    | some (outs, Except.error e) => some (outs, Except.error e)
    | some (outs, Except.ok LoopStatus.Break) => some (outs, Except.ok ())
    | some (outs, Except.ok LoopStatus.Continue) =>
      match run r rest with
      | none => none
      | some (outs2, res) => some (outs ++ outs2, res)

/-- A numeric argument type for concrete instances: parses decimal digit
strings, with the parse error message of Rust's integer `FromStr`. -/
def natArg : ArgType :=
  ⟨fun s =>
    if s ≠ "" ∧ s.data.all (fun c => decide (48 ≤ c.toNat ∧ c.toNat ≤ 57)) then Except.ok s
    else Except.error "invalid digit found in string"⟩

theorem validateValues_first_fail :
    ∀ (spec : List ArgType) (args : List String) (i : Nat) (e : String),
      args.length = spec.length → i < spec.length →
      (∀ j, j < i → ((spec.getD j default).parse (args.getD j "")).isOk = true) →
      (spec.getD i default).parse (args.getD i "") = Except.error e →
      validateValues spec args =
        Except.error (ArgsError.WrongArgumentValue (args.getD i "") e)
  | [], _, i, _, _, hi, _, _ => absurd hi (by simp)
  | _ :: _, [], _, _, hlen, _, _, _ => by simp at hlen
  | t :: ts, a :: rest, 0, e, _, _, _, hfail => by
    simp only [List.getD_cons_zero] at hfail ⊢
    simp [validateValues, hfail]
  | t :: ts, a :: rest, i + 1, e, hlen, hi, hok, hfail => by
    have h0 : (t.parse a).isOk = true := by
      have h := hok 0 (Nat.succ_pos i)
      simpa using h
    obtain ⟨v, hv⟩ : ∃ v, t.parse a = Except.ok v := by
      cases hp : t.parse a with
      | ok v => exact ⟨v, rfl⟩
      | error er => rw [hp] at h0; simp [Except.isOk, Except.toBool] at h0
    have hlen2 : rest.length = ts.length := by simpa using hlen
    have hi2 : i < ts.length := by simpa using hi
    have hok2 : ∀ j, j < i → ((ts.getD j default).parse (rest.getD j "")).isOk = true := by
      intro j hj
      have h := hok (j + 1) (Nat.succ_lt_succ hj)
      simpa using h
    have hfail2 : (ts.getD i default).parse (rest.getD i "") = Except.error e := by
      simpa using hfail
    have ih := validateValues_first_fail ts rest i e hlen2 hi2 hok2 hfail2
    simp only [List.getD_cons_succ]
    simp [validateValues, hv, ih]

/-- C3: a validator generated by `validator!` over `n` declared argument
types fails every argument list of length other than `n` with
`WrongNumberOfArguments {got := length args, expected := n}`, before any
per-argument parse is attempted: the result is the same for every type list
of that length, so no value-parse error can accompany an arity error. -/
theorem arity_error_first (spec : List ArgType) (args : List String)
    (h : args.length ≠ spec.length) :
    validator spec args =
      Except.error (ArgsError.WrongNumberOfArguments args.length spec.length) ∧
    ∀ spec2 : List ArgType, spec2.length = spec.length →
      validator spec2 args =
        Except.error (ArgsError.WrongNumberOfArguments args.length spec.length) := by
  constructor
  · simp [validator, h]
  · intro spec2 hlen
    simp only [validator, hlen]
    rw [if_pos h]

theorem arity_error_first_witness :
    (["1"].length ≠ [natArg, natArg].length) ∧
    validator [natArg, natArg] ["1"] =
      Except.error (ArgsError.WrongNumberOfArguments 1 2) :=
  ⟨by decide, (arity_error_first [natArg, natArg] ["1"] (by decide)).1⟩

/-- C4: for an argument list of correct arity, if position `i` is the first
position whose string fails to parse against its declared type, the
validator returns the error built at position `i`: `WrongArgumentValue`
with the raw text `args[i]` and the parse failure as cause.  Later
positions are unconstrained by the hypotheses, so they are never consulted
even if they would also fail. -/
theorem first_wrong_value_reported (spec : List ArgType) (args : List String) (i : Nat)
    (e : String) (hlen : args.length = spec.length) (hi : i < spec.length)
    (hok : ∀ j, j < i → ((spec.getD j default).parse (args.getD j "")).isOk = true)
    (hfail : (spec.getD i default).parse (args.getD i "") = Except.error e) :
    validator spec args =
      Except.error (ArgsError.WrongArgumentValue (args.getD i "") e) := by
  have hne : ¬ args.length ≠ spec.length := by simp [hlen]
  simp only [validator, if_neg hne]
  exact validateValues_first_fail spec args i e hlen hi hok hfail

theorem first_wrong_value_reported_witness :
    (["x", "y"].length = [natArg, natArg].length) ∧
    natArg.parse "x" = Except.error "invalid digit found in string" ∧
    validator [natArg, natArg] ["x", "y"] =
      Except.error (ArgsError.WrongArgumentValue "x" "invalid digit found in string") :=
  ⟨rfl, rfl,
    first_wrong_value_reported [natArg, natArg] ["x", "y"] 0 "invalid digit found in string"
      rfl (by decide) (fun j hj => absurd hj (Nat.not_lt_zero j)) rfl⟩

theorem validateValues_parseAll :
    ∀ (spec : List ArgType) (args : List String),
      args.length = spec.length → validateValues spec args = Except.ok () →
      ∃ vals, parseAll spec args = some vals
  | [], [], _, _ => ⟨[], rfl⟩
  | [], _ :: _, hlen, _ => by simp at hlen
  | _ :: _, [], hlen, _ => by simp at hlen
  | t :: ts, a :: rest, hlen, hv => by
    cases hp : t.parse a with
    | error e => simp [validateValues, hp] at hv
    | ok v =>
      have hlen2 : rest.length = ts.length := by simpa using hlen
      have hv2 : validateValues ts rest = Except.ok () := by
        simpa [validateValues, hp] using hv
      obtain ⟨vals, hvals⟩ := validateValues_parseAll ts rest hlen2 hv2
      exact ⟨v :: vals, by simp [parseAll, hp, hvals]⟩

/-- C10: whenever the validator generated for a `command!` command accepts
the argument list, the re-parsing of every argument performed by the
generated handler (`args[i].parse::<T>().unwrap()`) succeeds: the panic
path of `commandRun` is unreachable and the user closure is called on the
parsed values. -/
theorem double_parse_never_panics (spec : List ArgType) (args : List String)
    (h : validator spec args = Except.ok ()) :
    ∃ vals, parseAll spec args = some vals ∧
      ∀ handler, commandRun spec handler args = some (handler vals) := by
  have hlen : args.length = spec.length := by
    by_contra hne
    simp [validator, hne] at h
  have hv : validateValues spec args = Except.ok () := by
    simpa [validator, hlen] using h
  obtain ⟨vals, hvals⟩ := validateValues_parseAll spec args hlen hv
  refine ⟨vals, hvals, fun handler => ?_⟩
  simp [commandRun, h, hvals]

theorem double_parse_never_panics_witness :
    validator [natArg] ["7"] = Except.ok () ∧
    ∃ vals, parseAll [natArg] ["7"] = some vals ∧
      ∀ handler, commandRun [natArg] handler ["7"] = some (handler vals) :=
  ⟨rfl, double_parse_never_panics [natArg] ["7"] rfl⟩

theorem lexLe_total : ∀ a b : List Char, lexLe a b = true ∨ lexLe b a = true
  | [], _ => Or.inl rfl
  | _ :: _, [] => Or.inr rfl
  | a :: as1, b :: bs1 => by
    rcases Nat.lt_trichotomy a.toNat b.toNat with h | h | h
    · left; simp [lexLe, h]
    · have h2 : ¬ a.toNat < b.toNat := by omega
      have h3 : ¬ b.toNat < a.toNat := by omega
      rcases lexLe_total as1 bs1 with ih | ih
      · left; simp [lexLe, h2, h3, ih]
      · right; simp [lexLe, h2, h3, ih]
    · right; simp [lexLe, h]

theorem lexLe_trans :
    ∀ a b c : List Char, lexLe a b = true → lexLe b c = true → lexLe a c = true
  | [], _, _, _, _ => rfl
  | _ :: _, [], _, hab, _ => by simp [lexLe] at hab
  | _ :: _, _ :: _, [], _, hbc => by simp [lexLe] at hbc
  | a :: as1, b :: bs1, c :: cs1, hab, hbc => by
    simp only [lexLe] at hab hbc ⊢
    by_cases h1 : a.toNat < b.toNat
    · by_cases h2 : b.toNat < c.toNat
      · have h : a.toNat < c.toNat := Nat.lt_trans h1 h2
        simp [h]
      · by_cases h3 : c.toNat < b.toNat
        · rw [if_neg h2, if_pos h3] at hbc; simp at hbc
        · have h : a.toNat < c.toNat := by omega
          simp [h]
    · by_cases h4 : b.toNat < a.toNat
      · rw [if_neg h1, if_pos h4] at hab; simp at hab
      · by_cases h2 : b.toNat < c.toNat
        · have h : a.toNat < c.toNat := by omega
          simp [h]
        · by_cases h3 : c.toNat < b.toNat
          · rw [if_neg h2, if_pos h3] at hbc; simp at hbc
          · have h5 : ¬ a.toNat < c.toNat := by omega
            have h6 : ¬ c.toNat < a.toNat := by omega
            rw [if_neg h1, if_neg h4] at hab
            rw [if_neg h2, if_neg h3] at hbc
            rw [if_neg h5, if_neg h6]
            exact lexLe_trans as1 bs1 cs1 hab hbc

theorem strLe_total (a b : String) : strLe a b = true ∨ strLe b a = true :=
  lexLe_total a.data b.data

theorem strLe_trans (a b c : String) (hab : strLe a b = true) (hbc : strLe b c = true) :
    strLe a c = true :=
  lexLe_trans a.data b.data c.data hab hbc

theorem perm_insertSorted (x : String) :
    ∀ l : List String, List.Perm (insertSorted x l) (x :: l)
  | [] => List.Perm.refl _
  | y :: ys => by
    simp only [insertSorted]
    by_cases h : strLe x y = true
    · rw [if_pos h]
    · rw [if_neg h]
      exact (List.Perm.cons y (perm_insertSorted x ys)).trans (List.Perm.swap x y ys)

theorem perm_sortStrings : ∀ l : List String, List.Perm (sortStrings l) l
  | [] => List.Perm.refl _
  | x :: xs =>
    (perm_insertSorted x (sortStrings xs)).trans (List.Perm.cons x (perm_sortStrings xs))

theorem pairwise_insertSorted (x : String) :
    ∀ l : List String, List.Pairwise (fun a b => strLe a b = true) l →
      List.Pairwise (fun a b => strLe a b = true) (insertSorted x l)
  | [], _ => by simp [insertSorted]
  | y :: ys, hp => by
    simp only [insertSorted]
    by_cases h : strLe x y = true
    · rw [if_pos h]
      refine List.Pairwise.cons ?_ hp
      intro z hz
      rcases List.mem_cons.mp hz with rfl | hz2
      · exact h
      · exact strLe_trans x y z h (List.rel_of_pairwise_cons hp hz2)
    · rw [if_neg h]
      have hx : strLe y x = true := by
        rcases strLe_total x y with h2 | h2
        · exact absurd h2 h
        · exact h2
      obtain ⟨hy_all, hys⟩ := List.pairwise_cons.mp hp
      refine List.pairwise_cons.mpr ⟨?_, pairwise_insertSorted x ys hys⟩
      intro z hz
      have hz3 : z ∈ x :: ys := (perm_insertSorted x ys).mem_iff.mp hz
      rcases List.mem_cons.mp hz3 with rfl | hz2
      · exact hx
      · exact hy_all z hz2

theorem pairwise_sortStrings :
    ∀ l : List String, List.Pairwise (fun a b => strLe a b = true) (sortStrings l)
  | [] => List.Pairwise.nil
  | x :: xs => pairwise_insertSorted x (sortStrings xs) (pairwise_sortStrings xs)

theorem candidates_of_filter (trie : List String) (p : String) (hp : p ≠ "") :
    completion_candidates trie p = trie.filter (fun name => strIsPrefix p name) := by
  simp [completion_candidates, hp]

theorem handle_line_unique (r : Repl) (p name : String) (tail : List String)
    (hc : completion_candidates r.trie p = [name])
    (hok : r.predict_commands = true ∨ name = p) :
    handle_line r (p :: tail) = dispatch r name tail := by
  rcases hok with h | h
  · simp [handle_line, hc, h]
  · subst h
    simp [handle_line, hc]

theorem handle_line_multi (r : Repl) (p : String) (tail : List String)
    (h2 : 2 ≤ (completion_candidates r.trie p).length) :
    handle_line r (p :: tail) =
      some ([Out.commandNotFound p,
             Out.candidates (sortStrings (completion_candidates r.trie p)), Out.useHelp],
            Except.ok LoopStatus.Continue) := by
  have hne : (completion_candidates r.trie p).length ≠ 1 := by omega
  have hgt : 1 < (completion_candidates r.trie p).length := by omega
  simp [handle_line, hne, hgt]

theorem handle_line_reject_strict (r : Repl) (p name : String) (tail : List String)
    (hpred : r.predict_commands = false)
    (hc : completion_candidates r.trie p = [name]) (hne : name ≠ p) :
    handle_line r (p :: tail) =
      some ([Out.commandNotFound p, Out.candidates [name], Out.useHelp],
            Except.ok LoopStatus.Continue) := by
  have hx : completion_candidates r.trie p ≠ [p] := by
    rw [hc]
    simp [hne]
  simp [handle_line, hc, hpred, hx, hne, sortStrings, insertSorted]

/-- C1: with prefix execution enabled, an input line whose first token is a
prefix of exactly one registered-or-reserved name resolves to that name and
is dispatched to its handler (or the built-in help and quit behaviour of
`handle_command`), even when the token is a strict, non-exact prefix. -/
theorem unique_prefix_dispatches (r : Repl) (p name : String) (tail : List String)
    (hpred : r.predict_commands = true) (hp : p ≠ "")
    (huniq : r.trie.filter (fun n => strIsPrefix p n) = [name]) :
    handle_line r (p :: tail) = dispatch r name tail := by
  have hc : completion_candidates r.trie p = [name] := by
    rw [candidates_of_filter r.trie p hp, huniq]
  exact handle_line_unique r p name tail hc (Or.inl hpred)

/-- An example command whose handler just reports success. -/
def exCmdDone : Command :=
  ⟨"description", [], fun _ => Except.ok CommandStatus.Done⟩

/-- Example REPL with one registered command and prefix execution. -/
def exRepl : Repl :=
  { commands := [("move", exCmdDone)], trie := ["move", "help", "quit"],
    predict_commands := true }

theorem unique_prefix_dispatches_witness :
    (exRepl.predict_commands = true ∧ "mo" ≠ "" ∧
      exRepl.trie.filter (fun n => strIsPrefix "mo" n) = ["move"]) ∧
    handle_line exRepl ["mo"] = dispatch exRepl "move" [] ∧
    dispatch exRepl "move" [] = some ([], Except.ok LoopStatus.Continue) :=
  ⟨⟨rfl, by decide, by decide⟩,
    unique_prefix_dispatches exRepl "mo" "move" [] rfl (by decide) (by decide), rfl⟩

/-- C5: an input line whose first token is a prefix of two or more
registered-or-reserved names fails resolution without dispatching: the
output is exactly the `Command not found` line, the `Candidates:` block
over the sorted matching names, and the help hint; the printed list is a
permutation of the candidates, sorted by the string order. -/
theorem ambiguous_prefix_reports (r : Repl) (p : String) (tail : List String)
    (h2 : 2 ≤ (completion_candidates r.trie p).length) :
    handle_line r (p :: tail) =
      some ([Out.commandNotFound p,
             Out.candidates (sortStrings (completion_candidates r.trie p)), Out.useHelp],
            Except.ok LoopStatus.Continue) ∧
    List.Perm (sortStrings (completion_candidates r.trie p)) (completion_candidates r.trie p) ∧
    List.Pairwise (fun a b => strLe a b = true)
      (sortStrings (completion_candidates r.trie p)) :=
  ⟨handle_line_multi r p tail h2, perm_sortStrings _, pairwise_sortStrings _⟩

/-- Example REPL with two registered commands sharing the initial `m`. -/
def exRepl2 : Repl :=
  { commands := [("move", exCmdDone), ("make", exCmdDone)],
    trie := ["move", "make", "help", "quit"], predict_commands := true }

theorem ambiguous_prefix_reports_witness :
    (2 ≤ (completion_candidates exRepl2.trie "m").length) ∧
    handle_line exRepl2 ["m"] =
      some ([Out.commandNotFound "m", Out.candidates ["make", "move"], Out.useHelp],
            Except.ok LoopStatus.Continue) :=
  ⟨by decide,
    ((ambiguous_prefix_reports exRepl2 "m" [] (by decide)).1).trans (by rfl)⟩

/-- C7: with prefix execution disabled, a token that is a strict, non-exact
prefix matching exactly one name is rejected: the loop reports
`Command not found` and lists that single candidate and no handler runs;
but a token exactly equal to its unique matching name still dispatches. -/
theorem predict_disabled_strict_rejected (r : Repl) (p name : String) (tail : List String)
    (hpred : r.predict_commands = false) (hp : p ≠ "")
    (huniq : r.trie.filter (fun n => strIsPrefix p n) = [name]) :
    (name ≠ p →
      handle_line r (p :: tail) =
        some ([Out.commandNotFound p, Out.candidates [name], Out.useHelp],
              Except.ok LoopStatus.Continue)) ∧
    (name = p → handle_line r (p :: tail) = dispatch r p tail) := by
  have hc : completion_candidates r.trie p = [name] := by
    rw [candidates_of_filter r.trie p hp, huniq]
  constructor
  · intro hne
    exact handle_line_reject_strict r p name tail hpred hc hne
  · intro he
    subst he
    exact handle_line_unique r name name tail hc (Or.inr rfl)

/-- Example REPL with one registered command and prefix execution disabled. -/
def exReplNoPred : Repl :=
  { commands := [("move", exCmdDone)], trie := ["move", "help", "quit"],
    predict_commands := false }

theorem predict_disabled_strict_rejected_witness :
    handle_line exReplNoPred ["mo"] =
      some ([Out.commandNotFound "mo", Out.candidates ["move"], Out.useHelp],
            Except.ok LoopStatus.Continue) ∧
    handle_line exReplNoPred ["move"] = dispatch exReplNoPred "move" [] ∧
    dispatch exReplNoPred "move" [] = some ([], Except.ok LoopStatus.Continue) :=
  ⟨(predict_disabled_strict_rejected exReplNoPred "mo" "move" [] rfl (by decide)
      (by decide)).1 (by decide),
   (predict_disabled_strict_rejected exReplNoPred "move" "move" [] rfl (by decide)
      (by decide)).2 rfl,
   rfl⟩

theorem two_le_length_of_mem_ne :
    ∀ {l : List String} {a b : String}, a ∈ l → b ∈ l → a ≠ b → 2 ≤ l.length
  | [], a, _, ha, _, _ => absurd ha (List.not_mem_nil a)
  | [_], _, _, ha, hb, hab => by
    rw [List.mem_singleton] at ha hb
    exact absurd (ha.trans hb.symm) hab
  | _ :: _ :: _, _, _, _, _, _ => by
    simp only [List.length_cons]
    omega

theorem strIsPrefix_self (p : String) : strIsPrefix p p = true := by
  simp [strIsPrefix, List.isPrefixOf_iff_prefix]

/-- C9: when a registered-or-reserved name is itself a strict prefix of
another name in the trie, entering exactly that name is treated as
ambiguous: the not-found diagnostic with all sorted candidates is printed
and nothing is dispatched, even though the token is an exact match and even
with prefix execution enabled (exact matches get no precedence). -/
theorem exact_match_still_ambiguous (r : Repl) (p q : String) (tail : List String)
    (hp : p ≠ "") (hmemp : p ∈ r.trie) (hmemq : q ∈ r.trie) (hpq : p ≠ q)
    (hpre : strIsPrefix p q = true) :
    handle_line r (p :: tail) =
      some ([Out.commandNotFound p,
             Out.candidates (sortStrings (completion_candidates r.trie p)), Out.useHelp],
            Except.ok LoopStatus.Continue) := by
  have hpf : p ∈ completion_candidates r.trie p := by
    rw [candidates_of_filter r.trie p hp]
    exact List.mem_filter.mpr ⟨hmemp, strIsPrefix_self p⟩
  have hqf : q ∈ completion_candidates r.trie p := by
    rw [candidates_of_filter r.trie p hp]
    exact List.mem_filter.mpr ⟨hmemq, hpre⟩
  exact handle_line_multi r p tail (two_le_length_of_mem_ne hpf hqf hpq)

/-- Example REPL where `move` is a strict prefix of `move2`. -/
def exRepl9 : Repl :=
  { commands := [("move", exCmdDone), ("move2", exCmdDone)],
    trie := ["move", "move2", "help", "quit"], predict_commands := true }

theorem exact_match_still_ambiguous_witness :
    ("move" ∈ exRepl9.trie ∧ "move2" ∈ exRepl9.trie ∧
      exRepl9.predict_commands = true ∧ strIsPrefix "move" "move2" = true) ∧
    handle_line exRepl9 ["move"] =
      some ([Out.commandNotFound "move", Out.candidates ["move", "move2"], Out.useHelp],
            Except.ok LoopStatus.Continue) :=
  ⟨⟨by decide, by decide, rfl, by decide⟩,
    (exact_match_still_ambiguous exRepl9 "move" "move2" [] (by decide) (by decide)
      (by decide) (by decide) (by decide)).trans (by rfl)⟩

theorem dispatch_error_only_critical (r : Repl) (name : String) (tail : List String)
    (outs : List Out) (e : ReplError)
    (h : dispatch r name tail = some (outs, Except.error e)) :
    ∃ m, e = ReplError.critical m := by
  unfold dispatch at h
  cases hcmd : handle_command r name tail with
  | none => rw [hcmd] at h; simp at h
  | some res =>
    obtain ⟨outs0, st⟩ := res
    rw [hcmd] at h
    cases st with
    | ok c => cases c <;> simp at h
    | error e0 =>
      cases e0 with
      | critical m =>
        simp only [Option.some.injEq, Prod.mk.injEq, Except.error.injEq] at h
        exact ⟨m, h.2.symm⟩
      | args ae =>
        cases hlk : lookupCmd r.commands name with
        | none => rw [hlk] at h; simp at h
        | some cmd => rw [hlk] at h; simp at h
      | other m => simp at h

theorem handle_line_error_only_critical (r : Repl) (args : List String) (outs : List Out)
    (e : ReplError) (h : handle_line r args = some (outs, Except.error e)) :
    ∃ m, e = ReplError.critical m := by
  match args with
  | [] => simp [handle_line] at h
  | pfx :: tail =>
    simp only [handle_line] at h
    split at h
    · simp at h
    · split at h
      · exact dispatch_error_only_critical r _ tail outs e h
      · simp at h

theorem handle_line_runs_handler (r : Repl) (p name : String) (tail : List String)
    (cmd : Command)
    (hpred : r.predict_commands = true) (hp : p ≠ "")
    (huniq : r.trie.filter (fun n => strIsPrefix p n) = [name])
    (hh : name ≠ "help") (hq : name ≠ "quit")
    (hcmd : lookupCmd r.commands name = some cmd) :
    handle_line r (p :: tail) =
      match cmd.handler tail with
      | Except.ok CommandStatus.Done => some ([], Except.ok LoopStatus.Continue)
      | Except.ok CommandStatus.Quit => some ([], Except.ok LoopStatus.Break)
      | Except.error (ReplError.critical m) => some ([], Except.error (ReplError.critical m))
      | Except.error (ReplError.args ae) =>
          some ([Out.errorMsg (ReplError.args ae), Out.usage name cmd.args_info],
                Except.ok LoopStatus.Continue)
      | Except.error (ReplError.other m) =>
          some ([Out.errorMsg (ReplError.other m)], Except.ok LoopStatus.Continue) := by
  have hc : completion_candidates r.trie p = [name] := by
    rw [candidates_of_filter r.trie p hp, huniq]
  rw [handle_line_unique r p name tail hc (Or.inl hpred)]
  unfold dispatch handle_command
  rw [if_neg hh, if_neg hq, hcmd]
  cases hhandler : cmd.handler tail with
  | ok c => cases c <;> simp [hhandler]
  | error e0 => cases e0 <;> simp [hhandler, hcmd]

theorem run_stops_on_error (r : Repl) (args : List String) (outs : List Out) (e : ReplError)
    (rest : List (List String)) (h : handle_line r args = some (outs, Except.error e)) :
    run r (args :: rest) = some (outs, Except.error e) := by
  simp [run, h]

/-- C2: a handler error wrapped in `CriticalError` is returned by
`handle_line` to its caller instead of being printed, so `run` terminates
with that error whatever input remains; any error `handle_line` itself
returns is of that kind (the only escape path); every other handler error
is printed (`Error: ...`, plus the usage line for an `ArgsError`) and the
loop continues with `LoopStatus.Continue`. -/
theorem critical_error_propagates (r : Repl) :
    (∀ p name tail cmd m,
        r.predict_commands = true → p ≠ "" →
        r.trie.filter (fun n => strIsPrefix p n) = [name] →
        name ≠ "help" → name ≠ "quit" →
        lookupCmd r.commands name = some cmd →
        cmd.handler tail = Except.error (ReplError.critical m) →
        handle_line r (p :: tail) = some ([], Except.error (ReplError.critical m))) ∧
    (∀ args outs e rest, handle_line r args = some (outs, Except.error e) →
        run r (args :: rest) = some (outs, Except.error e)) ∧
    (∀ args outs e, handle_line r args = some (outs, Except.error e) →
        ∃ m, e = ReplError.critical m) ∧
    (∀ p name tail cmd m,
        r.predict_commands = true → p ≠ "" →
        r.trie.filter (fun n => strIsPrefix p n) = [name] →
        name ≠ "help" → name ≠ "quit" →
        lookupCmd r.commands name = some cmd →
        cmd.handler tail = Except.error (ReplError.other m) →
        handle_line r (p :: tail) =
          some ([Out.errorMsg (ReplError.other m)], Except.ok LoopStatus.Continue)) ∧
    (∀ p name tail cmd ae,
        r.predict_commands = true → p ≠ "" →
        r.trie.filter (fun n => strIsPrefix p n) = [name] →
        name ≠ "help" → name ≠ "quit" →
        lookupCmd r.commands name = some cmd →
        cmd.handler tail = Except.error (ReplError.args ae) →
        handle_line r (p :: tail) =
          some ([Out.errorMsg (ReplError.args ae), Out.usage name cmd.args_info],
                Except.ok LoopStatus.Continue)) := by
  refine ⟨?_, ?_, ?_, ?_, ?_⟩
  · intro p name tail cmd m hpred hp huniq hh hq hcmd hhandler
    rw [handle_line_runs_handler r p name tail cmd hpred hp huniq hh hq hcmd, hhandler]
  · intro args outs e rest h
    exact run_stops_on_error r args outs e rest h
  · intro args outs e h
    exact handle_line_error_only_critical r args outs e h
  · intro p name tail cmd m hpred hp huniq hh hq hcmd hhandler
    rw [handle_line_runs_handler r p name tail cmd hpred hp huniq hh hq hcmd, hhandler]
  · intro p name tail cmd ae hpred hp huniq hh hq hcmd hhandler
    rw [handle_line_runs_handler r p name tail cmd hpred hp huniq hh hq hcmd, hhandler]

/-- An example command whose handler reports a critical error. -/
def exCmdCrit : Command :=
  ⟨"description", [], fun _ => Except.error (ReplError.critical "kaboom")⟩

/-- Example REPL whose only registered command fails critically. -/
def exReplCrit : Repl :=
  { commands := [("boom", exCmdCrit)], trie := ["boom", "help", "quit"],
    predict_commands := true }

theorem critical_error_propagates_witness :
    handle_line exReplCrit ["b"] = some ([], Except.error (ReplError.critical "kaboom")) ∧
    run exReplCrit [["b"], ["quit"]] =
      some ([], Except.error (ReplError.critical "kaboom")) := by
  have h1 := (critical_error_propagates exReplCrit).1 "b" "boom" [] exCmdCrit "kaboom"
    rfl (by decide) (by decide) (by decide) (by decide) rfl rfl
  exact ⟨h1,
    (critical_error_propagates exReplCrit).2.1 ["b"] [] (ReplError.critical "kaboom")
      [["quit"]] h1⟩

theorem buildLoop_ok_shape :
    ∀ (predict : Bool) (done rest : List (String × Command)) (r : Repl),
      buildLoop predict done rest = Except.ok r →
      r.trie = (done ++ rest).map Prod.fst ++ RESERVED.map Prod.fst ∧
      r.commands = done ++ rest ∧ r.predict_commands = predict
  | predict, done, [], r, h => by
    simp only [buildLoop, Except.ok.injEq] at h
    subst h
    simp
  | predict, done, (name, cmd) :: rest, r, h => by
    simp only [buildLoop] at h
    split at h
    · simp at h
    · split at h
      · simp at h
      · split at h
        · simp at h
        · have ih := buildLoop_ok_shape predict (done ++ [(name, cmd)]) rest r h
          simpa [List.append_assoc] using ih

theorem any_eq_mem (done : List (String × Command)) (name : String) :
    (done.any (fun c => c.1 == name) = true) ↔ name ∈ done.map Prod.fst := by
  simp [List.any_eq_true, List.mem_map, beq_iff_eq]

theorem buildLoop_isOk :
    ∀ (predict : Bool) (done rest : List (String × Command)),
      (done.map Prod.fst).Nodup →
      ((buildLoop predict done rest).isOk = true ↔
        ((∀ n ∈ rest.map Prod.fst, validName n = true ∧ isReserved n = false) ∧
          (done.map Prod.fst ++ rest.map Prod.fst).Nodup))
  | predict, done, [], hd => by
    simp [buildLoop, Except.isOk, Except.toBool, hd]
  | predict, done, (name, cmd) :: rest, hd => by
    simp only [buildLoop]
    by_cases h1 : validName name = false
    · rw [if_pos h1]
      simp only [Except.isOk, Except.toBool]
      constructor
      · intro hcontra; simp at hcontra
      · rintro ⟨hall, _⟩
        have hv := (hall name (by simp)).1
        exact Bool.noConfusion (hv.symm.trans h1)
    · have h1t : validName name = true := by
        revert h1; cases validName name <;> simp
      rw [if_neg h1]
      by_cases h2 : isReserved name = true
      · rw [if_pos h2]
        simp only [Except.isOk, Except.toBool]
        constructor
        · intro hcontra; simp at hcontra
        · rintro ⟨hall, _⟩
          have hv := (hall name (by simp)).2
          exact Bool.noConfusion (h2.symm.trans hv)
      · have h2f : isReserved name = false := by
          revert h2; cases isReserved name <;> simp
        rw [if_neg h2]
        by_cases h3 : done.any (fun c => c.1 == name) = true
        · rw [if_pos h3]
          simp only [Except.isOk, Except.toBool]
          have hmem : name ∈ done.map Prod.fst := (any_eq_mem done name).mp h3
          constructor
          · intro hcontra; simp at hcontra
          · rintro ⟨_, hnodup⟩
            rcases List.nodup_append.mp hnodup with ⟨-, -, hdisj⟩
            exact absurd (hdisj hmem (by simp)) (fun hfalse => hfalse)
        · rw [if_neg h3]
          have hnot : name ∉ done.map Prod.fst := fun hmem =>
            h3 ((any_eq_mem done name).mpr hmem)
          have hd2 : ((done ++ [(name, cmd)]).map Prod.fst).Nodup := by
            simp [List.nodup_append, hd, hnot]
          rw [buildLoop_isOk predict (done ++ [(name, cmd)]) rest hd2]
          simp only [List.map_append, List.map_cons, List.map_nil, List.append_assoc,
            List.singleton_append, List.forall_mem_cons, h1t, h2f]
          tauto

theorem buildLoop_error_sound :
    ∀ (predict : Bool) (done rest : List (String × Command)) (e : BuilderError),
      buildLoop predict done rest = Except.error e →
      (∀ n, e = BuilderError.InvalidName n → validName n = false) ∧
      (∀ n, e = BuilderError.ReservedName n → isReserved n = true) ∧
      (∀ n, e = BuilderError.DuplicateCommands n →
        2 ≤ (done.map Prod.fst ++ rest.map Prod.fst).count n)
  | predict, done, [], e, h => by simp [buildLoop] at h
  | predict, done, (name, cmd) :: rest, e, h => by
    simp only [buildLoop] at h
    split at h
    case isTrue h1 =>
      have he : e = BuilderError.InvalidName name := by
        simp only [Except.error.injEq] at h
        exact h.symm
      subst he
      refine ⟨?_, ?_, ?_⟩
      · intro n hn
        cases hn
        exact h1
      · intro n hn
        simp at hn
      · intro n hn
        simp at hn
    case isFalse h1 =>
      split at h
      case isTrue h2 =>
        have he : e = BuilderError.ReservedName name := by
          simp only [Except.error.injEq] at h
          exact h.symm
        subst he
        refine ⟨?_, ?_, ?_⟩
        · intro n hn
          simp at hn
        · intro n hn
          cases hn
          exact h2
        · intro n hn
          simp at hn
      case isFalse h2 =>
        split at h
        case isTrue h3 =>
          have he : e = BuilderError.DuplicateCommands name := by
            simp only [Except.error.injEq] at h
            exact h.symm
          subst he
          refine ⟨?_, ?_, ?_⟩
          · intro n hn
            simp at hn
          · intro n hn
            simp at hn
          · intro n hn
            cases hn
            have hmem : name ∈ done.map Prod.fst := (any_eq_mem done name).mp h3
            have hc1 : 0 < (done.map Prod.fst).count name := List.count_pos_iff.mpr hmem
            rw [List.count_append]
            simp only [List.map_cons, List.count_cons_self]
            omega
        case isFalse h3 =>
          have ih := buildLoop_error_sound predict (done ++ [(name, cmd)]) rest e h
          refine ⟨ih.1, ih.2.1, ?_⟩
          intro n hn
          have hcount := ih.2.2 n hn
          simp only [List.map_append, List.map_cons, List.map_nil] at hcount ⊢
          rw [List.count_append] at hcount ⊢
          rw [List.count_append] at hcount
          simp only [List.count_cons, List.count_nil] at hcount ⊢
          omega

/-- C6: for a built REPL, `completion_candidates` over the trie answers the
empty prefix with the empty list (never the full registry), and for every
non-empty prefix returns exactly the names among the registered commands
and the reserved names `help` and `quit` that start with that prefix. -/
theorem predict_returns_exact_set (predict : Bool) (cmds : List (String × Command))
    (r : Repl) (hb : build predict cmds = Except.ok r) :
    completion_candidates r.trie "" = [] ∧
    ∀ p, p ≠ "" → ∀ x, x ∈ completion_candidates r.trie p ↔
      ((x ∈ cmds.map Prod.fst ∨ x = "help" ∨ x = "quit") ∧ strIsPrefix p x = true) := by
  have hshape := buildLoop_ok_shape predict [] cmds r hb
  constructor
  · simp [completion_candidates]
  · intro p hp x
    rw [candidates_of_filter r.trie p hp, hshape.1]
    simp only [List.nil_append, RESERVED, List.map_cons, List.map_nil, List.mem_filter,
      List.mem_append, List.mem_cons, List.not_mem_nil, or_false]

theorem predict_returns_exact_set_witness :
    build true [("move", exCmdDone)] = Except.ok exRepl ∧
    completion_candidates exRepl.trie "" = [] ∧
    ("move" ∈ completion_candidates exRepl.trie "mo" ↔
      (("move" ∈ [("move", exCmdDone)].map Prod.fst ∨ "move" = "help" ∨ "move" = "quit") ∧
        strIsPrefix "mo" "move" = true)) :=
  ⟨rfl, (predict_returns_exact_set true [("move", exCmdDone)] exRepl rfl).1,
    (predict_returns_exact_set true [("move", exCmdDone)] exRepl rfl).2 "mo"
      (by decide) "move"⟩

/-- C8: `ReplBuilder::build` succeeds exactly when every added command name
is valid (tokenizes to a single shell word and is non-empty), is not one of
the reserved names, and is unique among the added names; and each build
error is specific to a real violation: `InvalidName` is only reported for
an invalid name, `ReservedName` only for a reserved one (in particular for
a command named `help`), and `DuplicateCommands` only for a name added at
least twice. -/
theorem build_name_validation (predict : Bool) (cmds : List (String × Command)) :
    ((build predict cmds).isOk = true ↔
      ((∀ n ∈ cmds.map Prod.fst, validName n = true ∧ isReserved n = false) ∧
        (cmds.map Prod.fst).Nodup)) ∧
    (∀ n, build predict cmds = Except.error (BuilderError.InvalidName n) →
      validName n = false) ∧
    (∀ n, build predict cmds = Except.error (BuilderError.ReservedName n) →
      isReserved n = true) ∧
    (∀ n, build predict cmds = Except.error (BuilderError.DuplicateCommands n) →
      2 ≤ (cmds.map Prod.fst).count n) := by
  have hiff := buildLoop_isOk predict [] cmds (by simp)
  refine ⟨by simpa [build] using hiff, ?_, ?_, ?_⟩
  · intro n h
    exact (buildLoop_error_sound predict [] cmds _ h).1 n rfl
  · intro n h
    exact (buildLoop_error_sound predict [] cmds _ h).2.1 n rfl
  · intro n h
    have hc := (buildLoop_error_sound predict [] cmds _ h).2.2 n rfl
    simpa using hc

theorem build_name_validation_witness :
    build true [("help", exCmdDone)] = Except.error (BuilderError.ReservedName "help") ∧
    isReserved "help" = true ∧
    (build true [("move", exCmdDone)]).isOk = true :=
  ⟨rfl,
    (build_name_validation true [("help", exCmdDone)]).2.2.1 "help" rfl,
    (build_name_validation true [("move", exCmdDone)]).1.mpr (by decide)⟩
